import Mathlib

/-!
Verification of the session/room manager in `src/server.py` (a two-player
tic-tac-toe websocket backend).

The Python module keeps a global dict `ROOMS` mapping 6-digit code strings to
room dicts with keys `player_x`, `player_o` (a websocket or `None`),
`game_state` (a list of 9 strings) and `current_player` (a string).
We embed this state shallowly:

* a websocket connection is an opaque handle `Conn := Nat` (always truthy,
  compared by identity, as Python compares websocket objects);
* `ROOMS` is an insertion-ordered association list `Registry`, matching the
  ordered-dict semantics of a Python dict with unique keys; `setRoom` models
  in-place mutation of the room stored under an existing key and `delRoom`
  models `del ROOMS[code]`;
* values drawn from decoded JSON message fields are modelled by `PyVal`:
  `vNone` is Python `None` (also the result of `dict.get` on a missing key),
  `vBool`/`vInt`/`vStr` are scalar payload values, `vFloat` carries a
  non-integral JSON number as the rational it denotes (every JSON number is
  one), and `vOther` stands for the remaining list/dict values.  (Unhashable
  field values used as dict keys, which would raise `TypeError` inside a
  membership test, are outside this model.)
* `int(index)` is modelled by `pyToInt`, mirroring CPython exactly: identity
  on integers, 0/1 on booleans, truncation toward zero on floats, and on
  strings the conversion `pyIntOfString` — strip Unicode whitespace from both
  ends, one optional sign, then a nonempty run of Unicode decimal digits with
  single underscores allowed between digits (whitespace and digit tables
  generated from CPython's own behavior); `None` and list/dict values raise,
  that is, convert to `none`;
* an outbound `send` is recorded as a `Sent` triple (recipient, message type,
  message data) in the order the Python code awaits the sends.

Each handler becomes a pure function from the registry (plus the inbound
message fields) to the updated registry and the list of sent messages,
translated clause by clause from `server.py`.
-/

/-! ### String constants of the protocol -/

def emptyCell : String := ""
def sX : String := "X"
def sO : String := "O"
def sTIE : String := "TIE"

def kType : String := "type"
def kCode : String := "code"
def kIndex : String := "index"
def kPlayer : String := "player"

def tCreateRoom : String := "create_room"
def tJoinRoom : String := "join_room"
def tGameMove : String := "game_move"
def tDisconnectRoom : String := "disconnect_room"
def tRoomCreated : String := "room_created"
def tRoomJoined : String := "room_joined"
def tOpponentJoined : String := "opponent_joined"
def tError : String := "error"
def tTurnSwitch : String := "turn_switch"
def tGameWin : String := "game_win"
def tGameTie : String := "game_tie"
def tOppDisc : String := "opponent_disconnected"

def mNotFound : String := "Room not found."
def mRoomFull : String := "Room is full."
def tPing : String := "ping"

/-! ### Data model -/

abbrev Conn := Nat

structure Room where
  player_x : Option Conn
  player_o : Option Conn
  game_state : List String
  current_player : String
deriving DecidableEq, Repr

abbrev Registry := List (String × Room)

def lookupRoom : Registry → String → Option Room
  | [], _ => none
  | p :: R, c => if p.1 = c then some p.2 else lookupRoom R c

def setRoom (R : Registry) (c : String) (r : Room) : Registry :=
  R.map (fun p => if p.1 = c then (c, r) else p)

def delRoom (R : Registry) (c : String) : Registry :=
  R.filter (fun p => p.1 ≠ c)

/-! ### Decoded JSON values and dicts -/

inductive PyVal where
  | vNone
  | vBool (b : Bool)
  | vInt (n : Int)
  | vFloat (q : Rat)
  | vStr (s : String)
  | vOther
deriving DecidableEq, Repr

abbrev PyDict := List (String × PyVal)

def dictGet : PyDict → String → PyVal
  | [], _ => PyVal.vNone
  | p :: d, k => if p.1 = k then p.2 else dictGet d k

/-- The code points Python strips from both ends of a string given to
`int()`: ASCII whitespace and the Unicode space characters (the list is the
exact set of code points `c` for which CPython accepts `int("5" + chr(c))`).
-/
def isPySpace (c : Char) : Bool :=
  decide (c.toNat ∈ [0x9, 0xA, 0xB, 0xC, 0xD, 0x20, 0x85, 0xA0, 0x1680,
    0x2000, 0x2001, 0x2002, 0x2003, 0x2004, 0x2005, 0x2006, 0x2007, 0x2008,
    0x2009, 0x200A, 0x2028, 0x2029, 0x202F, 0x205F, 0x3000])

/-- First code points of the 66 runs of ten consecutive Unicode decimal
digits (category Nd; table generated from CPython's unicodedata, which is
what `int()` consults): a digit's value is its offset into its run. -/
def ND_STARTS : List Nat :=
  [0x30, 0x660, 0x6F0, 0x7C0, 0x966, 0x9E6, 0xA66, 0xAE6, 0xB66, 0xBE6,
   0xC66, 0xCE6, 0xD66, 0xDE6, 0xE50, 0xED0, 0xF20, 0x1040, 0x1090, 0x17E0,
   0x1810, 0x1946, 0x19D0, 0x1A80, 0x1A90, 0x1B50, 0x1BB0, 0x1C40, 0x1C50,
   0xA620, 0xA8D0, 0xA900, 0xA9D0, 0xA9F0, 0xAA50, 0xABF0, 0xFF10, 0x104A0,
   0x10D30, 0x11066, 0x110F0, 0x11136, 0x111D0, 0x112F0, 0x11450, 0x114D0,
   0x11650, 0x116C0, 0x11730, 0x118E0, 0x11950, 0x11C50, 0x11D50, 0x11DA0,
   0x16A60, 0x16AC0, 0x16B50, 0x1D7CE, 0x1D7D8, 0x1D7E2, 0x1D7EC, 0x1D7F6,
   0x1E140, 0x1E2F0, 0x1E950, 0x1FBF0]

/-- The decimal value of a Unicode digit character, `none` for non-digits. -/
def pyDigitVal (c : Char) : Option Nat :=
  (ND_STARTS.find? (fun s => decide (s ≤ c.toNat) && decide (c.toNat ≤ s + 9))).map
    (fun s => c.toNat - s)

/-- Continuation of a digit group: further digits, with a single underscore
permitted only between two digits (CPython rejects doubled, leading and
trailing underscores). -/
def pyDigitsRun (acc : Nat) : List Char → Option Nat
  | [] => some acc
  | '_' :: c :: cs =>
    match pyDigitVal c with
    | some d => pyDigitsRun (acc * 10 + d) cs
    | none => none
  | ['_'] => none
  | c :: cs =>
    match pyDigitVal c with
    | some d => pyDigitsRun (acc * 10 + d) cs
    | none => none

/-- A nonempty underscore-separated digit group, as its base-10 value. -/
def pyDigits : List Char → Option Nat
  | [] => none
  | c :: cs =>
    match pyDigitVal c with
    | some d => pyDigitsRun d cs
    | none => none

/-- CPython's `int()` on a string: strip whitespace from both ends, allow one
optional sign, then a nonempty digit group; anything else raises `ValueError`
(`none` here). -/
def pyIntOfString (s : String) : Option Int :=
  let cs := ((s.data.dropWhile isPySpace).reverse.dropWhile isPySpace).reverse
  match cs with
  | '+' :: rest => (pyDigits rest).map (fun n => (n : Int))
  | '-' :: rest => (pyDigits rest).map (fun n => -(n : Int))
  | rest => (pyDigits rest).map (fun n => (n : Int))

/-- CPython's `int(x)` for every value a decoded JSON field can hold:
integers unchanged, booleans 0/1, floats truncated toward zero, strings via
`pyIntOfString`; `None`, lists and dicts raise (`none`), and the `except`
around `int(index)` turns that into a silent rejection. -/
def pyToInt : PyVal → Option Int
  | PyVal.vInt n => some n
  | PyVal.vBool b => some (if b then 1 else 0)
  | PyVal.vFloat q => some (q.num.tdiv q.den)
  | PyVal.vStr s => pyIntOfString s
  | PyVal.vNone => none
  | PyVal.vOther => none

/-! ### Outbound messages -/

inductive MsgData where
  | emptyData
  | codeData (c : String)
  | errorMsg (m : String)
  | moveData (index : Int) (player : String)
  | turnData (player : String)
  | endData (winner : String) (condition : Option (Nat × Nat × Nat))
      (board : List String) (index : Int) (player : String)
  | discData (symbol : String)
deriving DecidableEq, Repr

abbrev Sent := Conn × String × MsgData

/-- Translation of `broadcast_message`: looks the room up afresh in the
registry and sends to `player_x` then `player_o`, skipping unoccupied slots. -/
def broadcast_message (R : Registry) (code : String) (t : String) (d : MsgData) :
    List Sent :=
  match lookupRoom R code with
  | none => []
  | some room =>
    (room.player_x.toList ++ room.player_o.toList).map (fun ws => (ws, t, d))

/-- Translation of `get_room_by_websocket`: the first room (in dict insertion
order) one of whose slots holds the given connection. -/
def get_room_by_websocket : Registry → Conn → Option (String × Room)
  | [], _ => none
  | p :: R, ws =>
    if p.2.player_x = some ws ∨ p.2.player_o = some ws then some p
    else get_room_by_websocket R ws

/-! ### Turn-state engine -/

/-- The table `WINNING_CONDITIONS` from `server.py`: 3 rows, 3 columns,
2 diagonals, in the source's order. -/
def WINNING_CONDITIONS : List (Nat × Nat × Nat) :=
  [(0, 1, 2), (3, 4, 5), (6, 7, 8),
   (0, 3, 6), (1, 4, 7), (2, 5, 8),
   (0, 4, 8), (2, 4, 6)]

/-- The test applied to one condition `(a, b, c)` inside the loop of
`check_win`: `board[a]` is truthy (non-empty) and
`board[a] == board[b] == board[c]`. -/
def line_filled (board : List String) (cond : Nat × Nat × Nat) : Prop :=
  board.getD cond.1 emptyCell ≠ emptyCell ∧
  board.getD cond.1 emptyCell = board.getD cond.2.1 emptyCell ∧
  board.getD cond.1 emptyCell = board.getD cond.2.2 emptyCell

instance (board : List String) (cond : Nat × Nat × Nat) :
    Decidable (line_filled board cond) := by
  unfold line_filled; infer_instance

/-- The loop of `check_win`: return the first condition whose three cells are
equal and non-empty. -/
def find_winning_line (board : List String) :
    List (Nat × Nat × Nat) → Option (Nat × Nat × Nat)
  | [] => none
  | cond :: rest =>
    if line_filled board cond then some cond
    else find_winning_line board rest

/-- Translation of `check_win`: first matching line wins; otherwise `TIE` if
no empty cell remains; otherwise `(None, None)`. -/
def check_win (board : List String) : Option String × Option (Nat × Nat × Nat) :=
  match find_winning_line board WINNING_CONDITIONS with
  | some cond => (some (board.getD cond.1 emptyCell), some cond)
  | none => if emptyCell ∈ board then (none, none) else (some sTIE, none)

/-! ### Handlers -/

/-- Translation of `handle_create_room`, parameterized by the code string the
call to `generate_unique_code()` returned (a Python dict insert appends). -/
def handle_create_room (R : Registry) (ws : Conn) (code : String) :
    Registry × List Sent :=
  (R ++ [(code,
    { player_x := some ws, player_o := none,
      game_state := List.replicate 9 emptyCell, current_player := sX })],
   [(ws, tRoomCreated, MsgData.codeData code)])

/-- Translation of `handle_join_room`.  `if not code or code not in ROOMS`
fails for a missing/falsy code field, for a non-string code (which can never
equal a string key) and for an unregistered code string. -/
def handle_join_room (R : Registry) (ws : Conn) (data : PyDict) :
    Registry × List Sent :=
  match dictGet data kCode with
  | PyVal.vStr c =>
    if c = emptyCell then (R, [(ws, tError, MsgData.errorMsg mNotFound)])
    else
      match lookupRoom R c with
      | none => (R, [(ws, tError, MsgData.errorMsg mNotFound)])
      | some room =>
        if room.player_o.isSome then (R, [(ws, tError, MsgData.errorMsg mRoomFull)])
        else
          let room1 := { room with player_o := some ws }
          let notify :=
            match room.player_x with
            | some wx => [(wx, tOpponentJoined, MsgData.codeData c)]
            | none => []
          (setRoom R c room1, notify ++ [(ws, tRoomJoined, MsgData.codeData c)])
  | _ => (R, [(ws, tError, MsgData.errorMsg mNotFound)])

/-- Translation of `handle_game_move`.  Every rejection path in the Python
code is a bare `return`: nothing is sent and nothing is mutated.  On a legal
move the board cell is written first, then `check_win` decides between the
decisive branch (broadcast, then reset board and turn) and the ongoing branch
(flip the turn, then broadcast the move and the new turn).  The sending
connection `ws` is never consulted — only the claimed `player` field is. -/
def handle_game_move (R : Registry) (ws : Conn) (data : PyDict) :
    Registry × List Sent :=
  let indexV := dictGet data kIndex
  let playerV := dictGet data kPlayer
  match dictGet data kCode with
  | PyVal.vStr c =>
    match lookupRoom R c with
    | none => (R, [])
    | some room =>
      if indexV = PyVal.vNone ∨ playerV = PyVal.vNone then (R, [])
      else
        match pyToInt indexV with
        | none => (R, [])
        | some index =>
          if index < 0 ∨ 8 < index then (R, [])
          else if ¬ playerV = PyVal.vStr room.current_player ∨
              ¬ room.game_state.getD index.toNat emptyCell = emptyCell then (R, [])
          else
            let p := room.current_player
            let board1 := room.game_state.set index.toNat p
            let room1 := { room with game_state := board1 }
            let R1 := setRoom R c room1
            match check_win board1 with
            | (some winner, condition) =>
              let msgs := broadcast_message R1 c
                (if ¬ winner = sTIE then tGameWin else tGameTie)
                (MsgData.endData winner condition board1 index p)
              (setRoom R1 c { room1 with
                game_state := List.replicate 9 emptyCell
                current_player := sX }, msgs)
            | (none, _) =>
              let room2 := { room1 with current_player := if p = sX then sO else sX }
              let R2 := setRoom R c room2
              (R2, broadcast_message R2 c tGameMove (MsgData.moveData index p) ++
                broadcast_message R2 c tTurnSwitch (MsgData.turnData room2.current_player))
  | _ => (R, [])

/-- Translation of `unregister`: locate the first room holding the connection;
choose the vacated symbol by comparing against `player_x`; clear the slot;
delete the room if both slots are now empty, otherwise broadcast
`opponent_disconnected` (the registry already holds the cleared room). -/
def unregister (R : Registry) (ws : Conn) : Registry × List Sent :=
  match get_room_by_websocket R ws with
  | none => (R, [])
  | some (code, room) =>
    let symb := if room.player_x = some ws then sX else sO
    let room1 :=
      if symb = sX then { room with player_x := none }
      else { room with player_o := none }
    if room1.player_x = none ∧ room1.player_o = none then
      (delRoom R code, [])
    else
      (setRoom R code room1,
       broadcast_message (setRoom R code room1) code tOppDisc (MsgData.discData symb))

/-! ### Message router -/

/-- An inbound websocket frame as the handler loop classifies it:
`notJson` is a payload on which `json.loads` raises (caught, loop continues);
`jsonNonObject` is valid JSON that is not an object, on which `data.get`
raises an uncaught `AttributeError` (the handler coroutine dies and the
connection is closed); `jsonObject` is a decoded JSON object. -/
inductive Inbound where
  | notJson
  | jsonNonObject
  | jsonObject (data : PyDict)
deriving DecidableEq, Repr

/-- One iteration of the `async for` loop in `handler`, parameterized by the
code `generate_unique_code()` would return.  `Except.error ()` marks the paths
on which an uncaught exception escapes the loop and the connection is
terminated (after the `finally: unregister` cleanup). -/
def handler_step (R : Registry) (ws : Conn) (code : String) (msg : Inbound) :
    Except Unit (Registry × List Sent) :=
  match msg with
  | Inbound.notJson => Except.ok (R, [])
  | Inbound.jsonNonObject => Except.error ()
  | Inbound.jsonObject data =>
    let msg_type := dictGet data kType
    if msg_type = PyVal.vStr tCreateRoom then Except.ok (handle_create_room R ws code)
    else if msg_type = PyVal.vStr tJoinRoom then Except.ok (handle_join_room R ws data)
    else if msg_type = PyVal.vStr tGameMove then Except.ok (handle_game_move R ws data)
    else if msg_type = PyVal.vStr tDisconnectRoom then Except.ok (unregister R ws)
    else Except.ok (R, [])

/-! ### Code generation -/

/-- Fuel-indexed unfolding of the `while True` retry loop in
`generate_unique_code`.  `draws` is the stream of values produced by
`random.randint(100000, 999999)`; the loop returns `str(draw)` for the first
draw whose string is not a registered code.  `none` means the loop has not
returned within the given number of iterations: the source has no exit or
error path other than finding an unused code. -/
def generate_unique_code_iter (R : Registry) : (Nat → Nat) → Nat → Option String
  | _, 0 => none
  | draws, fuel + 1 =>
    if (lookupRoom R (toString (draws 0))).isSome then
      generate_unique_code_iter R (fun i => draws (i + 1)) fuel
    else some (toString (draws 0))

/-! ### Acceptance predicate and transition relation -/

/-- The exact condition under which `handle_game_move` reaches the mutation:
the code field is a registered code string, the index field converts to an
integer in `[0, 8]`, the claimed player field equals the room's
`current_player`, and the target cell is empty.  (The missing-field check
`index is None or player is None` is subsumed: `pyToInt` fails on `vNone` and
a `current_player` string never equals `vNone`.) -/
def move_accepted (R : Registry) (data : PyDict) : Prop :=
  ∃ c room i,
    dictGet data kCode = PyVal.vStr c ∧
    lookupRoom R c = some room ∧
    pyToInt (dictGet data kIndex) = some i ∧
    0 ≤ i ∧ i ≤ 8 ∧
    dictGet data kPlayer = PyVal.vStr room.current_player ∧
    room.game_state.getD i.toNat emptyCell = emptyCell

/-- Every registry mutation the server performs: a room creation with a code
`generate_unique_code` could have returned (so, an unregistered one), a join,
a move, or an `unregister` (reached via a `disconnect_room` message or via the
`finally` cleanup when the read loop ends for any reason). -/
def step_rel (R R2 : Registry) : Prop :=
  (∃ ws code, lookupRoom R code = none ∧ R2 = (handle_create_room R ws code).1) ∨
  (∃ ws data, R2 = (handle_join_room R ws data).1) ∨
  (∃ ws data, R2 = (handle_game_move R ws data).1) ∨
  (∃ ws, R2 = (unregister R ws).1)

/-- Chains of server steps along which the room with code `c` stays
registered. -/
inductive steps_alive (c : String) : Registry → Registry → Prop where
  | refl (R : Registry) : steps_alive c R R
  | tail {R1 R2 R3 : Registry} : steps_alive c R1 R2 → step_rel R2 R3 →
      (lookupRoom R3 c).isSome = true → steps_alive c R1 R3

/-- A room with both slots unoccupied (such a session must never exist in the
registry). -/
def no_dead (R : Registry) : Prop :=
  ∀ p ∈ R, p.2.player_x.isSome = true ∨ p.2.player_o.isSome = true

/-- A session whose X slot has been vacated while the O slot is occupied. -/
def half_session (c : String) (R : Registry) : Prop :=
  ∃ r, lookupRoom R c = some r ∧ r.player_x = none ∧ r.player_o.isSome = true

/-- The registry's codes are pairwise distinct, as Python dict keys are. -/
def keys_nodup (R : Registry) : Prop := (R.map Prod.fst).Nodup

/-! ### Concrete states used by witnesses and counterexamples -/

def c123 : String := "123456"

def roomW : Room :=
  { player_x := some 1, player_o := some 2,
    game_state := List.replicate 9 emptyCell, current_player := sX }

def RW : Registry := [(c123, roomW)]

def dataW : PyDict :=
  [(kCode, PyVal.vStr c123), (kIndex, PyVal.vInt 0), (kPlayer, PyVal.vStr sX)]

def dataBadIdx : PyDict :=
  [(kCode, PyVal.vStr c123), (kIndex, PyVal.vInt 9), (kPlayer, PyVal.vStr sX)]

def dataNoIdx : PyDict :=
  [(kCode, PyVal.vStr c123), (kPlayer, PyVal.vStr sX)]

def dataC5 : PyDict :=
  [(kCode, PyVal.vStr c123), (kIndex, PyVal.vInt 4), (kPlayer, PyVal.vStr sX)]

def boardWin : List String :=
  [sX, sX, sX, sO, sO, emptyCell, emptyCell, emptyCell, emptyCell]

def boardTie : List String :=
  [sX, sO, sX, sX, sO, sO, sO, sX, sX]

def roomC4 : Room :=
  { player_x := some 1, player_o := some 2,
    game_state := [sX, sX, emptyCell, sO, sO, emptyCell, emptyCell, emptyCell, emptyCell],
    current_player := sX }

def RC4 : Registry := [(c123, roomC4)]

def dataC4 : PyDict :=
  [(kCode, PyVal.vStr c123), (kIndex, PyVal.vInt 2), (kPlayer, PyVal.vStr sX)]

def roomHalf : Room :=
  { player_x := some 1, player_o := none,
    game_state := List.replicate 9 emptyCell, current_player := sX }

def RH : Registry := [(c123, roomHalf)]

def dataJoin : PyDict := [(kCode, PyVal.vStr c123)]

def dataPing : PyDict := [(kType, PyVal.vStr tPing)]

def roomHalfO : Room :=
  { player_x := none, player_o := some 2,
    game_state := List.replicate 9 emptyCell, current_player := sX }

def RHalfO : Registry := [(c123, roomHalfO)]

def drawsW : Nat → Nat := fun _ => 123456

/-! ### Registry lemmas -/

theorem lookupRoom_cons (p : String × Room) (R : Registry) (c : String) :
    lookupRoom (p :: R) c = if p.1 = c then some p.2 else lookupRoom R c := rfl

theorem setRoom_cons (p : String × Room) (R : Registry) (c : String) (r : Room) :
    setRoom (p :: R) c r = (if p.1 = c then (c, r) else p) :: setRoom R c r := rfl

theorem delRoom_cons (p : String × Room) (R : Registry) (c : String) :
    delRoom (p :: R) c = if p.1 = c then delRoom R c else p :: delRoom R c := by
  by_cases h : p.1 = c <;> simp [delRoom, List.filter_cons, h]

theorem lookupRoom_mem {R : Registry} {c : String} {r : Room}
    (h : lookupRoom R c = some r) : (c, r) ∈ R := by
  induction R with
  | nil => simp [lookupRoom] at h
  | cons p R ih =>
    obtain ⟨p1, p2⟩ := p
    rw [lookupRoom_cons] at h
    by_cases hc : p1 = c
    · rw [if_pos hc] at h
      injection h with h2
      subst hc
      subst h2
      exact List.mem_cons_self _ _
    · rw [if_neg hc] at h
      exact List.mem_cons_of_mem _ (ih h)

theorem lookupRoom_setRoom_self {R : Registry} {c : String} {r0 : Room} (r : Room)
    (h : (c, r0) ∈ R) : lookupRoom (setRoom R c r) c = some r := by
  induction R with
  | nil => simp at h
  | cons p R ih =>
    rw [setRoom_cons, lookupRoom_cons]
    by_cases hc : p.1 = c
    · rw [if_pos hc]; simp
    · rw [if_neg hc]
      simp only [if_neg hc]
      rcases List.mem_cons.1 h with he | he
      · exact absurd (by rw [← he]) hc
      · exact ih he

theorem lookupRoom_setRoom_ne {R : Registry} {c c2 : String} (r : Room)
    (h : c2 ≠ c) : lookupRoom (setRoom R c r) c2 = lookupRoom R c2 := by
  induction R with
  | nil => rfl
  | cons p R ih =>
    rw [setRoom_cons, lookupRoom_cons, lookupRoom_cons]
    by_cases hc : p.1 = c
    · rw [if_pos hc]
      simp only
      rw [if_neg (fun he => h he.symm), if_neg (fun he => h (hc ▸ he).symm)]
      exact ih
    · rw [if_neg hc]
      by_cases hc2 : p.1 = c2
      · rw [if_pos hc2, if_pos hc2]
      · rw [if_neg hc2, if_neg hc2]
        exact ih

theorem lookupRoom_delRoom_self (R : Registry) (c : String) :
    lookupRoom (delRoom R c) c = none := by
  induction R with
  | nil => rfl
  | cons p R ih =>
    rw [delRoom_cons]
    by_cases hc : p.1 = c
    · rw [if_pos hc]; exact ih
    · rw [if_neg hc, lookupRoom_cons, if_neg hc]; exact ih

theorem lookupRoom_delRoom_ne {R : Registry} {c c2 : String}
    (h : c2 ≠ c) : lookupRoom (delRoom R c) c2 = lookupRoom R c2 := by
  induction R with
  | nil => rfl
  | cons p R ih =>
    rw [delRoom_cons, lookupRoom_cons]
    by_cases hc : p.1 = c
    · rw [if_pos hc, if_neg (fun he : p.1 = c2 => h (he.symm.trans hc))]
      exact ih
    · rw [if_neg hc, lookupRoom_cons]
      by_cases hc2 : p.1 = c2
      · rw [if_pos hc2, if_pos hc2]
      · rw [if_neg hc2, if_neg hc2]; exact ih

theorem lookupRoom_append_some {R S : Registry} {c : String} {r : Room}
    (h : lookupRoom R c = some r) : lookupRoom (R ++ S) c = some r := by
  induction R with
  | nil => simp [lookupRoom] at h
  | cons p R ih =>
    rw [List.cons_append, lookupRoom_cons]
    rw [lookupRoom_cons] at h
    by_cases hc : p.1 = c
    · rwa [if_pos hc] at h ⊢
    · rw [if_neg hc] at h ⊢
      exact ih h

theorem lookupRoom_append_none {R S : Registry} {c : String}
    (h : lookupRoom R c = none) : lookupRoom (R ++ S) c = lookupRoom S c := by
  induction R with
  | nil => rfl
  | cons p R ih =>
    rw [List.cons_append, lookupRoom_cons]
    rw [lookupRoom_cons] at h
    by_cases hc : p.1 = c
    · rw [if_pos hc] at h; exact absurd h (by simp)
    · rw [if_neg hc] at h ⊢
      exact ih h

theorem lookupRoom_eq_none_iff {R : Registry} {c : String} :
    lookupRoom R c = none ↔ ∀ p ∈ R, p.1 ≠ c := by
  induction R with
  | nil => simp [lookupRoom]
  | cons p R ih =>
    rw [lookupRoom_cons]
    by_cases hc : p.1 = c <;> simp [hc, ih]

theorem setRoom_setRoom (R : Registry) (c : String) (r1 r2 : Room) :
    setRoom (setRoom R c r1) c r2 = setRoom R c r2 := by
  induction R with
  | nil => rfl
  | cons p R ih =>
    by_cases hc : p.1 = c <;> simp [setRoom_cons, hc, ih]

theorem mem_setRoom {p : String × Room} {R : Registry} {c : String} {r : Room}
    (h : p ∈ setRoom R c r) : p = (c, r) ∨ (p ∈ R ∧ p.1 ≠ c) := by
  unfold setRoom at h
  rcases List.mem_map.1 h with ⟨q, hq, hqe⟩
  by_cases hc : q.1 = c
  · left; rw [if_pos hc] at hqe; exact hqe.symm
  · right; rw [if_neg hc] at hqe; subst hqe; exact ⟨hq, hc⟩

/-! ### Turn-state engine lemmas -/

theorem find_winning_line_some {board : List String}
    {l : List (Nat × Nat × Nat)} {cond : Nat × Nat × Nat}
    (h : find_winning_line board l = some cond) :
    cond ∈ l ∧ line_filled board cond := by
  induction l with
  | nil => simp [find_winning_line] at h
  | cons c0 rest ih =>
    unfold find_winning_line at h
    split at h
    · next hfill => cases h; exact ⟨List.mem_cons_self _ _, hfill⟩
    · rcases ih h with ⟨hm, hf⟩
      exact ⟨List.mem_cons_of_mem _ hm, hf⟩

theorem find_winning_line_none {board : List String}
    {l : List (Nat × Nat × Nat)}
    (h : ∀ cond ∈ l, ¬ line_filled board cond) :
    find_winning_line board l = none := by
  induction l with
  | nil => rfl
  | cons c0 rest ih =>
    unfold find_winning_line
    rw [if_neg (h c0 (List.mem_cons_self _ _))]
    exact ih (fun cond hc => h cond (List.mem_cons_of_mem _ hc))

theorem find_winning_line_isSome {board : List String}
    {l : List (Nat × Nat × Nat)} {cond : Nat × Nat × Nat}
    (hm : cond ∈ l) (hf : line_filled board cond) :
    (find_winning_line board l).isSome = true := by
  induction l with
  | nil => simp at hm
  | cons c0 rest ih =>
    unfold find_winning_line
    split
    · rfl
    · next hn =>
      rcases List.mem_cons.1 hm with h | h
      · subst h; exact absurd hf hn
      · exact ih h

/-! ### Core lemmas about `handle_game_move` -/

theorem game_move_ws_irrelevant (R : Registry) (ws ws2 : Conn) (data : PyDict) :
    handle_game_move R ws data = handle_game_move R ws2 data := rfl

theorem game_move_rejected (R : Registry) (ws : Conn) (data : PyDict)
    (h : ¬ move_accepted R data) : handle_game_move R ws data = (R, []) := by
  unfold handle_game_move
  cases hcv : dictGet data kCode with
  | vNone => rfl
  | vBool b => rfl
  | vInt n => rfl
  | vFloat q => rfl
  | vOther => rfl
  | vStr c =>
    simp only
    cases hlr : lookupRoom R c with
    | none => rfl
    | some room =>
      simp only
      split
      · rfl
      · next hnn =>
        cases hti : pyToInt (dictGet data kIndex) with
        | none => rfl
        | some i =>
          simp only
          split
          · rfl
          · next hrange =>
            split
            · rfl
            · next hval =>
              exfalso
              apply h
              rw [not_or, not_not, not_not] at hval
              refine ⟨c, room, i, hcv, hlr, hti, by omega, by omega, ?_, hval.2⟩
              exact hval.1

theorem game_move_decisive {R : Registry} {data : PyDict} {c : String}
    {room : Room} {i : Int} {winner : String} {cond : Option (Nat × Nat × Nat)}
    (ws : Conn)
    (hc : dictGet data kCode = PyVal.vStr c)
    (hr : lookupRoom R c = some room)
    (hi : pyToInt (dictGet data kIndex) = some i)
    (hlo : 0 ≤ i) (hhi : i ≤ 8)
    (hp : dictGet data kPlayer = PyVal.vStr room.current_player)
    (hcell : room.game_state.getD i.toNat emptyCell = emptyCell)
    (hwin : check_win (room.game_state.set i.toNat room.current_player) =
      (some winner, cond)) :
    handle_game_move R ws data =
      (setRoom R c { room with
          game_state := List.replicate 9 emptyCell
          current_player := sX },
       broadcast_message
         (setRoom R c
           { room with game_state := room.game_state.set i.toNat room.current_player })
         c (if ¬ winner = sTIE then tGameWin else tGameTie)
         (MsgData.endData winner cond
           (room.game_state.set i.toNat room.current_player) i room.current_player)) := by
  have hne_idx : dictGet data kIndex ≠ PyVal.vNone := by
    intro he; rw [he] at hi; simp [pyToInt] at hi
  have hne_p : PyVal.vStr room.current_player ≠ PyVal.vNone := fun he =>
    PyVal.noConfusion he
  have hlo2 : ¬ i < 0 := by omega
  have hhi2 : ¬ 8 < i := by omega
  unfold handle_game_move
  simp only [hc, hr, hi, hp, hne_idx, hne_p, hlo2, hhi2, hcell, hwin, setRoom_setRoom,
    not_false_eq_true, or_self, if_false, not_true_eq_false, ite_false, ite_true,
    false_or, or_false, not_not, eq_self_iff_true, if_true]

theorem game_move_ongoing {R : Registry} {data : PyDict} {c : String}
    {room : Room} {i : Int}
    (ws : Conn)
    (hc : dictGet data kCode = PyVal.vStr c)
    (hr : lookupRoom R c = some room)
    (hi : pyToInt (dictGet data kIndex) = some i)
    (hlo : 0 ≤ i) (hhi : i ≤ 8)
    (hp : dictGet data kPlayer = PyVal.vStr room.current_player)
    (hcell : room.game_state.getD i.toNat emptyCell = emptyCell)
    (hwin : check_win (room.game_state.set i.toNat room.current_player) =
      (none, none)) :
    handle_game_move R ws data =
      (setRoom R c { room with
          game_state := room.game_state.set i.toNat room.current_player,
          current_player := if room.current_player = sX then sO else sX },
       broadcast_message
         (setRoom R c { room with
            game_state := room.game_state.set i.toNat room.current_player,
            current_player := if room.current_player = sX then sO else sX })
         c tGameMove (MsgData.moveData i room.current_player) ++
       broadcast_message
         (setRoom R c { room with
            game_state := room.game_state.set i.toNat room.current_player,
            current_player := if room.current_player = sX then sO else sX })
         c tTurnSwitch
         (MsgData.turnData (if room.current_player = sX then sO else sX))) := by
  have hne_idx : dictGet data kIndex ≠ PyVal.vNone := by
    intro he; rw [he] at hi; simp [pyToInt] at hi
  have hne_p : PyVal.vStr room.current_player ≠ PyVal.vNone := fun he =>
    PyVal.noConfusion he
  have hlo2 : ¬ i < 0 := by omega
  have hhi2 : ¬ 8 < i := by omega
  unfold handle_game_move
  simp only [hc, hr, hi, hp, hne_idx, hne_p, hlo2, hhi2, hcell, hwin,
    not_false_eq_true, or_self, if_false, not_true_eq_false, ite_false, ite_true,
    false_or, or_false, not_not, eq_self_iff_true, if_true]

theorem check_win_fst_none {board : List String}
    (h : (check_win board).1 = none) : check_win board = (none, none) := by
  cases hf : find_winning_line board WINNING_CONDITIONS with
  | some cond =>
    unfold check_win at h
    rw [hf] at h
    simp at h
  | none =>
    unfold check_win at h ⊢
    rw [hf] at h ⊢
    dsimp only at h ⊢
    split_ifs at h ⊢ with hmem
    rfl

theorem check_win_fst_some {board : List String}
    (h : (check_win board).1.isSome = true) :
    ∃ w cond, check_win board = (some w, cond) := by
  cases hw : (check_win board).1 with
  | none => rw [hw] at h; simp at h
  | some w =>
    exact ⟨w, (check_win board).2, by rw [← hw]⟩

/-- C1 counterexample: in the registry `RW` the room `"123456"` has
`player_x = 1`, `player_o = 2` and `current_player = "X"`.  Connection `2`
— which occupies slot O, not the slot matching the current turn — sends a
`game_move` claiming `player = "X"`, and the board is mutated (cell 0 is
written and the turn flips), contradicting the claim that a move is accepted
only when the mover's connection occupies the slot matching the current
turn. -/
theorem claim_C1_counterexample :
    lookupRoom (handle_game_move RW 2 dataW).1 c123 =
      some { player_x := some 1, player_o := some 2,
             game_state := (List.replicate 9 emptyCell).set 0 sX,
             current_player := sO } ∧
    roomW.player_x ≠ some 2 ∧ roomW.current_player = sX ∧
    lookupRoom RW c123 = some roomW := by decide

/-- C1 (amended): a `game_move` mutates the session's board and turn iff the
session exists, the index field converts to an integer in `[0, 8]`, the
message's claimed `player` field equals the session's current turn, and the
target cell is empty — the mover's connection is never consulted (the result
is identical for every sender); every other `game_move` leaves the registry
unchanged and sends nothing. -/
theorem claim_C1 (R : Registry) (ws : Conn) (data : PyDict) :
    (¬ move_accepted R data → handle_game_move R ws data = (R, [])) ∧
    (move_accepted R data → ∃ c room i,
      dictGet data kCode = PyVal.vStr c ∧ lookupRoom R c = some room ∧
      pyToInt (dictGet data kIndex) = some i ∧ 0 ≤ i ∧ i ≤ 8 ∧
      dictGet data kPlayer = PyVal.vStr room.current_player ∧
      room.game_state.getD i.toNat emptyCell = emptyCell ∧
      (((check_win (room.game_state.set i.toNat room.current_player)).1.isSome = true ∧
         lookupRoom (handle_game_move R ws data).1 c =
           some { room with
             game_state := List.replicate 9 emptyCell
             current_player := sX }) ∨
       ((check_win (room.game_state.set i.toNat room.current_player)).1 = none ∧
         lookupRoom (handle_game_move R ws data).1 c =
           some { room with
             game_state := room.game_state.set i.toNat room.current_player
             current_player := if room.current_player = sX then sO else sX }))) ∧
    (∀ ws2, handle_game_move R ws data = handle_game_move R ws2 data) := by
  refine ⟨game_move_rejected R ws data, ?_, fun ws2 => game_move_ws_irrelevant R ws ws2 data⟩
  rintro ⟨c, room, i, hc, hr, hi, hlo, hhi, hp, hcell⟩
  refine ⟨c, room, i, hc, hr, hi, hlo, hhi, hp, hcell, ?_⟩
  cases hfst : (check_win (room.game_state.set i.toNat room.current_player)).1 with
  | some w =>
    left
    have hwin : check_win (room.game_state.set i.toNat room.current_player) =
        (some w, (check_win (room.game_state.set i.toNat room.current_player)).2) := by
      rw [← hfst]
    refine ⟨rfl, ?_⟩
    rw [game_move_decisive ws hc hr hi hlo hhi hp hcell hwin]
    exact lookupRoom_setRoom_self _ (lookupRoom_mem hr)
  | none =>
    right
    have hwin := check_win_fst_none hfst
    refine ⟨rfl, ?_⟩
    rw [game_move_ongoing ws hc hr hi hlo hhi hp hcell hwin]
    exact lookupRoom_setRoom_self _ (lookupRoom_mem hr)

/-- C1 witness: an out-of-range move (index 9) is rejected with no state
change and nothing sent, and a move's outcome is identical whichever
connection sends it. -/
theorem claim_C1_witness :
    handle_game_move RW 2 dataBadIdx = (RW, []) ∧
    handle_game_move RW 2 dataW = handle_game_move RW 7 dataW := by
  constructor
  · apply (claim_C1 RW 2 dataBadIdx).1
    rintro ⟨c, room, i, hc, hr, hi, hlo, hhi, hp, hcell⟩
    have he : dictGet dataBadIdx kIndex = PyVal.vInt 9 := by decide
    rw [he] at hi
    simp only [pyToInt, Option.some.injEq] at hi
    omega
  · exact (claim_C1 RW 2 dataW).2.2 7

/-- C4: for every accepted move whose resulting board is decisive (win or
tie), after the handler completes the session's board equals 9 empty cells
and its turn equals X. -/
theorem claim_C4 {R : Registry} {data : PyDict} {c : String} {room : Room}
    {i : Int} (ws : Conn)
    (hc : dictGet data kCode = PyVal.vStr c)
    (hr : lookupRoom R c = some room)
    (hi : pyToInt (dictGet data kIndex) = some i)
    (hlo : 0 ≤ i) (hhi : i ≤ 8)
    (hp : dictGet data kPlayer = PyVal.vStr room.current_player)
    (hcell : room.game_state.getD i.toNat emptyCell = emptyCell)
    (hdec : (check_win (room.game_state.set i.toNat room.current_player)).1.isSome = true) :
    ∃ room2, lookupRoom (handle_game_move R ws data).1 c = some room2 ∧
      room2.game_state = List.replicate 9 emptyCell ∧
      room2.current_player = sX := by
  obtain ⟨w, cond, hwin⟩ := check_win_fst_some hdec
  rw [game_move_decisive ws hc hr hi hlo hhi hp hcell hwin]
  exact ⟨_, lookupRoom_setRoom_self _ (lookupRoom_mem hr), rfl, rfl⟩

/-- C4 witness: on the board X X _ / O O _ / _ _ _ with turn X, the accepted
move at index 2 completes line (0,1,2); afterwards the stored board is 9
empty cells and the stored turn is X. -/
theorem claim_C4_witness :
    ∃ room2, lookupRoom (handle_game_move RC4 1 dataC4).1 c123 = some room2 ∧
      room2.game_state = List.replicate 9 emptyCell ∧
      room2.current_player = sX :=
  @claim_C4 RC4 dataC4 c123 roomC4 2 1 (by decide) (by decide) (by decide)
    (by decide) (by decide) (by decide) (by decide) (by decide)

/-- C5: for every accepted move whose resulting board is not decisive, after
the handler completes the session's turn is the symbol opposite to the one
the move placed (X goes to O and O goes to X). -/
theorem claim_C5 {R : Registry} {data : PyDict} {c : String} {room : Room}
    {i : Int} (ws : Conn)
    (hc : dictGet data kCode = PyVal.vStr c)
    (hr : lookupRoom R c = some room)
    (hi : pyToInt (dictGet data kIndex) = some i)
    (hlo : 0 ≤ i) (hhi : i ≤ 8)
    (hp : dictGet data kPlayer = PyVal.vStr room.current_player)
    (hcell : room.game_state.getD i.toNat emptyCell = emptyCell)
    (hdec : (check_win (room.game_state.set i.toNat room.current_player)).1 = none) :
    ∃ room2, lookupRoom (handle_game_move R ws data).1 c = some room2 ∧
      room2.current_player = (if room.current_player = sX then sO else sX) ∧
      (room.current_player = sX → room2.current_player = sO) ∧
      (room.current_player = sO → room2.current_player = sX) := by
  have hwin := check_win_fst_none hdec
  rw [game_move_ongoing ws hc hr hi hlo hhi hp hcell hwin]
  refine ⟨_, lookupRoom_setRoom_self _ (lookupRoom_mem hr), rfl, ?_, ?_⟩
  · intro hx; simp [hx]
  · intro ho
    have hnx : ¬ room.current_player = sX := by rw [ho]; decide
    simp [hnx]

/-- C5 witness: on the empty board with turn X, the accepted move at index 4
is not decisive and the stored turn afterwards is O. -/
theorem claim_C5_witness :
    ∃ room2, lookupRoom (handle_game_move RW 1 dataC5).1 c123 = some room2 ∧
      room2.current_player = (if roomW.current_player = sX then sO else sX) ∧
      (roomW.current_player = sX → room2.current_player = sO) ∧
      (roomW.current_player = sO → room2.current_player = sX) :=
  @claim_C5 RW dataC5 c123 roomW 4 1 (by decide) (by decide) (by decide)
    (by decide) (by decide) (by decide) (by decide) (by decide)

/-- C9: a `game_move` whose data is missing the code, index or player field,
or whose index does not convert to an integer, or whose integer index lies
outside 0..8, returns with no registry change and sends nothing; the board is
read or written only after the index has passed the range check. -/
theorem claim_C9 (R : Registry) (ws : Conn) (data : PyDict)
    (h : dictGet data kCode = PyVal.vNone ∨ dictGet data kIndex = PyVal.vNone ∨
      dictGet data kPlayer = PyVal.vNone ∨ pyToInt (dictGet data kIndex) = none ∨
      ∃ i, pyToInt (dictGet data kIndex) = some i ∧ (i < 0 ∨ 8 < i)) :
    handle_game_move R ws data = (R, []) := by
  apply game_move_rejected
  rintro ⟨c, room, i, hc, hr, hi, hlo, hhi, hp, hcell⟩
  rcases h with h | h | h | h | ⟨j, hj, hout⟩
  · rw [h] at hc; exact PyVal.noConfusion hc
  · rw [h] at hi; simp [pyToInt] at hi
  · rw [h] at hp; exact PyVal.noConfusion hp
  · rw [h] at hi; exact Option.noConfusion hi
  · rw [hj] at hi; injection hi with he; omega

/-- C9 witness: a `game_move` with no index field is dropped silently. -/
theorem claim_C9_witness : handle_game_move RW 1 dataNoIdx = (RW, []) :=
  claim_C9 RW 1 dataNoIdx (Or.inr (Or.inl (by decide)))

/-- C2: for every board of 9 cells over empty/X/O, `check_win` returns a win
verdict `(some s, some cond)` — with `cond` one of the 8 fixed triples whose
three cells all hold the same non-empty symbol `s` — whenever some fixed
triple holds three equal non-empty cells; otherwise it returns the tie
verdict `(some "TIE", none)` when no cell is empty, and `(none, none)` when
an empty cell remains.  As a Lean function of the board it is pure: it
returns a verdict and leaves the board untouched. -/
theorem claim_C2 (board : List String) (hlen : board.length = 9)
    (hcells : ∀ s ∈ board, s = emptyCell ∨ s = sX ∨ s = sO) :
    ((∃ cond ∈ WINNING_CONDITIONS, line_filled board cond) →
      ∃ s cond, check_win board = (some s, some cond) ∧
        cond ∈ WINNING_CONDITIONS ∧ s ≠ emptyCell ∧
        board.getD cond.1 emptyCell = s ∧
        board.getD cond.2.1 emptyCell = s ∧
        board.getD cond.2.2 emptyCell = s) ∧
    ((∀ cond ∈ WINNING_CONDITIONS, ¬ line_filled board cond) →
      emptyCell ∉ board → check_win board = (some sTIE, none)) ∧
    ((∀ cond ∈ WINNING_CONDITIONS, ¬ line_filled board cond) →
      emptyCell ∈ board → check_win board = (none, none)) := by
  refine ⟨?_, ?_, ?_⟩
  · rintro ⟨cond, hmem, hfill⟩
    have hs := find_winning_line_isSome hmem hfill
    cases hf : find_winning_line board WINNING_CONDITIONS with
    | none => rw [hf] at hs; simp at hs
    | some cond2 =>
      obtain ⟨hm2, hf2⟩ := find_winning_line_some hf
      refine ⟨board.getD cond2.1 emptyCell, cond2, ?_, hm2, hf2.1, rfl,
        hf2.2.1.symm, hf2.2.2.symm⟩
      unfold check_win
      rw [hf]
  · intro hnone hfull
    unfold check_win
    rw [find_winning_line_none hnone, if_neg hfull]
  · intro hnone hempty
    unfold check_win
    rw [find_winning_line_none hnone, if_pos hempty]

/-- C2 witness: the board X X X / O O _ / _ _ _ has the filled line (0,1,2)
and `check_win` reports the win for X on that line; the tie board
X O X / X O O / O X X yields the tie verdict. -/
theorem claim_C2_witness :
    (∃ s cond, check_win boardWin = (some s, some cond) ∧
      cond ∈ WINNING_CONDITIONS ∧ s ≠ emptyCell ∧
      boardWin.getD cond.1 emptyCell = s ∧
      boardWin.getD cond.2.1 emptyCell = s ∧
      boardWin.getD cond.2.2 emptyCell = s) ∧
    check_win boardTie = (some sTIE, none) :=
  ⟨(claim_C2 boardWin (by decide) (by decide)).1
      ⟨(0, 1, 2), by decide, by decide⟩,
    (claim_C2 boardTie (by decide) (by decide)).2.1 (by decide) (by decide)⟩

/-- C3: the retry loop of `generate_unique_code` never signals exhaustion.
If every drawn code is already registered — which is forced when the whole
code space 100000..999999 is registered — the loop returns nothing after any
number of iterations and produces no message or error of any kind: the
claimed "capacity exhausted" failure does not exist in the code (the loop's
only exit returns a code, and such a returned code is always unregistered). -/
theorem claim_C3 (R : Registry) (draws : Nat → Nat) :
    ((∀ i, (lookupRoom R (toString (draws i))).isSome = true) →
      ∀ fuel, generate_unique_code_iter R draws fuel = none) ∧
    (∀ fuel code, generate_unique_code_iter R draws fuel = some code →
      lookupRoom R code = none) := by
  constructor
  · intro hall fuel
    induction fuel generalizing draws with
    | zero => rfl
    | succ n ih =>
      unfold generate_unique_code_iter
      rw [if_pos (hall 0)]
      exact ih _ (fun i => hall (i + 1))
  · intro fuel
    induction fuel generalizing draws with
    | zero => intro code h; exact Option.noConfusion h
    | succ n ih =>
      intro code h
      unfold generate_unique_code_iter at h
      split_ifs at h with hs
      · exact ih _ code h
      · cases h
        simpa using hs

/-- C3 witness: with room code 123456 registered and a draw stream that keeps
producing 123456, the loop makes no progress in 5 iterations and reports
nothing. -/
theorem claim_C3_witness :
    generate_unique_code_iter RW drawsW 5 = none :=
  (claim_C3 RW drawsW).1 (fun i => by simp only [drawsW]; decide) 5

/-- C7: `handle_join_room` fails with the not-found error when the code is
absent from the registry, fails with the full error when slot O is already
occupied, and otherwise stores the joiner in slot O, notifies the slot-X
occupant with `opponent_joined` and confirms `room_joined` to the joiner; in
both failure cases the registry is returned unchanged. -/
theorem claim_C7 (R : Registry) (ws : Conn) (data : PyDict) :
    (∀ c, dictGet data kCode = PyVal.vStr c → c ≠ emptyCell →
      lookupRoom R c = none →
      handle_join_room R ws data = (R, [(ws, tError, MsgData.errorMsg mNotFound)])) ∧
    (∀ c room, dictGet data kCode = PyVal.vStr c → c ≠ emptyCell →
      lookupRoom R c = some room → room.player_o.isSome = true →
      handle_join_room R ws data = (R, [(ws, tError, MsgData.errorMsg mRoomFull)])) ∧
    (∀ c room wx, dictGet data kCode = PyVal.vStr c → c ≠ emptyCell →
      lookupRoom R c = some room → room.player_o = none → room.player_x = some wx →
      handle_join_room R ws data =
        (setRoom R c { room with player_o := some ws },
         [(wx, tOpponentJoined, MsgData.codeData c),
          (ws, tRoomJoined, MsgData.codeData c)])) := by
  refine ⟨?_, ?_, ?_⟩
  · intro c hc hcne hlr
    unfold handle_join_room
    rw [hc]
    dsimp only
    rw [if_neg hcne, hlr]
  · intro c room hc hcne hlr hfull
    unfold handle_join_room
    rw [hc]
    dsimp only
    rw [if_neg hcne, hlr]
    dsimp only
    rw [if_pos hfull]
  · intro c room wx hc hcne hlr hpo hpx
    unfold handle_join_room
    rw [hc]
    dsimp only
    rw [if_neg hcne, hlr]
    dsimp only
    rw [if_neg (by simp [hpo]), hpx]
    rfl

/-- C7 witness: joining the one-occupant room 123456 stores the joiner in
slot O, notifies the creator and confirms to the joiner. -/
theorem claim_C7_witness :
    handle_join_room RH 5 dataJoin =
      (setRoom RH c123 { roomHalf with player_o := some 5 },
       [(1, tOpponentJoined, MsgData.codeData c123),
        (5, tRoomJoined, MsgData.codeData c123)]) :=
  (claim_C7 RH 5 dataJoin).2.2 c123 roomHalf 1 (by decide) (by decide)
    (by decide) (by decide) (by decide)

/-- C8 counterexample: a payload that parses as JSON but is not an object
(for example a JSON array) reaches `data.get('type')`, which raises an
uncaught `AttributeError`: the handler loop dies and the connection is
terminated, contradicting the claim that no malformed envelope ever
terminates the connection. -/
theorem claim_C8_counterexample :
    handler_step [] 0 c123 Inbound.jsonNonObject = Except.error () := rfl

/-- C8 (amended): a payload that is not valid JSON is logged and skipped, and
a decoded JSON object whose type is none of create_room, join_room,
game_move, disconnect_room falls through the dispatch chain: in both cases
the registry is unchanged, nothing is sent (no error reply) and the read loop
continues; however a payload that parses as non-object JSON raises an
uncaught exception and terminates the connection. -/
theorem claim_C8 (R : Registry) (ws : Conn) (code : String) (data : PyDict)
    (h1 : dictGet data kType ≠ PyVal.vStr tCreateRoom)
    (h2 : dictGet data kType ≠ PyVal.vStr tJoinRoom)
    (h3 : dictGet data kType ≠ PyVal.vStr tGameMove)
    (h4 : dictGet data kType ≠ PyVal.vStr tDisconnectRoom) :
    handler_step R ws code Inbound.notJson = Except.ok (R, []) ∧
    handler_step R ws code (Inbound.jsonObject data) = Except.ok (R, []) := by
  refine ⟨rfl, ?_⟩
  unfold handler_step
  dsimp only
  rw [if_neg h1, if_neg h2, if_neg h3, if_neg h4]

/-- C8 witness: a message of unknown type "ping" is ignored with no registry
change, no reply and no termination. -/
theorem claim_C8_witness :
    handler_step RW 1 c123 Inbound.notJson = Except.ok (RW, []) ∧
    handler_step RW 1 c123 (Inbound.jsonObject dataPing) = Except.ok (RW, []) :=
  claim_C8 RW 1 c123 dataPing (by decide) (by decide) (by decide) (by decide)

/-! ### Lemmas about `unregister` and `get_room_by_websocket` -/

theorem get_room_mem {R : Registry} {ws : Conn} {c : String} {r : Room}
    (h : get_room_by_websocket R ws = some (c, r)) : (c, r) ∈ R := by
  induction R with
  | nil => exact Option.noConfusion h
  | cons p R ih =>
    unfold get_room_by_websocket at h
    split at h
    · injection h with h2
      rw [← h2]
      exact List.mem_cons_self _ _
    · exact List.mem_cons_of_mem _ (ih h)

theorem broadcast_eq {R : Registry} {c : String} {room : Room}
    (h : lookupRoom R c = some room) (t : String) (d : MsgData) :
    broadcast_message R c t d =
      (room.player_x.toList ++ room.player_o.toList).map (fun ws => (ws, t, d)) := by
  unfold broadcast_message
  rw [h]

theorem unregister_x_leaves {R : Registry} {ws w2 : Conn} {c : String} {r : Room}
    (hfind : get_room_by_websocket R ws = some (c, r))
    (hx : r.player_x = some ws) (ho : r.player_o = some w2) :
    unregister R ws =
      (setRoom R c { r with player_x := none },
       [(w2, tOppDisc, MsgData.discData sX)]) := by
  unfold unregister
  rw [hfind]
  dsimp only
  rw [if_pos hx, if_pos rfl]
  rw [if_neg (fun hb => by rw [ho] at hb; exact Option.noConfusion hb.2)]
  rw [broadcast_eq (lookupRoom_setRoom_self _ (get_room_mem hfind))]
  simp [ho]

theorem unregister_o_leaves {R : Registry} {ws w1 : Conn} {c : String} {r : Room}
    (hfind : get_room_by_websocket R ws = some (c, r))
    (hxne : r.player_x ≠ some ws) (hpx : r.player_x = some w1)
    (ho : r.player_o = some ws) :
    unregister R ws =
      (setRoom R c { r with player_o := none },
       [(w1, tOppDisc, MsgData.discData sO)]) := by
  unfold unregister
  rw [hfind]
  dsimp only
  rw [if_neg hxne, if_neg (by decide : ¬ sO = sX)]
  rw [if_neg (fun hb => by rw [hpx] at hb; exact Option.noConfusion hb.1)]
  rw [broadcast_eq (lookupRoom_setRoom_self _ (get_room_mem hfind))]
  simp [hpx]

theorem unregister_last {R : Registry} {ws : Conn} {c : String} {r : Room}
    (hfind : get_room_by_websocket R ws = some (c, r))
    (hx : r.player_x = none) (ho : r.player_o = some ws) :
    unregister R ws = (delRoom R c, []) := by
  unfold unregister
  rw [hfind]
  dsimp only
  rw [hx]
  rw [if_neg (fun hb : (none : Option Conn) = some ws => Option.noConfusion hb)]
  rw [if_neg (by decide : ¬ sO = sX)]
  dsimp only
  rw [if_pos (And.intro rfl rfl :
    (none : Option Conn) = none ∧ (none : Option Conn) = none)]

theorem get_room_setRoom {ws : Conn} {c : String} {r1 : Room}
    (hocc : r1.player_x = some ws ∨ r1.player_o = some ws) :
    ∀ R : Registry, (∃ r0, (c, r0) ∈ R) →
      (∀ p ∈ R, p.1 ≠ c → ¬ (p.2.player_x = some ws ∨ p.2.player_o = some ws)) →
      get_room_by_websocket (setRoom R c r1) ws = some (c, r1) := by
  intro R
  induction R with
  | nil => rintro ⟨r0, hr0⟩ _; simp at hr0
  | cons p R ih =>
    rintro ⟨r0, hr0⟩ honly
    rw [setRoom_cons]
    by_cases hc : p.1 = c
    · rw [if_pos hc]
      unfold get_room_by_websocket
      rw [if_pos hocc]
    · rw [if_neg hc]
      unfold get_room_by_websocket
      rw [if_neg (honly p (List.mem_cons_self _ _) hc)]
      apply ih
      · rcases List.mem_cons.1 hr0 with he | he
        · exact absurd (congrArg Prod.fst he.symm) hc
        · exact ⟨r0, he⟩
      · intro q hq hqc
        exact honly q (List.mem_cons_of_mem _ hq) hqc

/-! ### Registry-effect case analyses for each operation -/

theorem join_registry_cases (R : Registry) (ws : Conn) (data : PyDict) :
    (handle_join_room R ws data).1 = R ∨
    ∃ c room, dictGet data kCode = PyVal.vStr c ∧ lookupRoom R c = some room ∧
      room.player_o = none ∧
      (handle_join_room R ws data).1 = setRoom R c { room with player_o := some ws } := by
  unfold handle_join_room
  cases hcv : dictGet data kCode with
  | vNone => left; rfl
  | vBool b => left; rfl
  | vInt n => left; rfl
  | vFloat q => left; rfl
  | vOther => left; rfl
  | vStr c =>
    dsimp only
    split_ifs with hce
    · left; rfl
    · cases hlr : lookupRoom R c with
      | none => left; rfl
      | some room =>
        dsimp only
        split_ifs with hfull
        · left; rfl
        · right
          refine ⟨c, room, rfl, hlr, ?_, rfl⟩
          cases hpo : room.player_o with
          | none => rfl
          | some w => rw [hpo] at hfull; exact absurd rfl hfull

theorem game_move_registry_cases (R : Registry) (ws : Conn) (data : PyDict) :
    (handle_game_move R ws data).1 = R ∨
    ∃ c room room2, lookupRoom R c = some room ∧
      room2.player_x = room.player_x ∧ room2.player_o = room.player_o ∧
      (handle_game_move R ws data).1 = setRoom R c room2 := by
  by_cases hacc : move_accepted R data
  · obtain ⟨c, room, i, hc, hr, hi, hlo, hhi, hp, hcell⟩ := hacc
    right
    cases hfst : (check_win (room.game_state.set i.toNat room.current_player)).1 with
    | some w =>
      have hwin : check_win (room.game_state.set i.toNat room.current_player) =
          (some w, (check_win (room.game_state.set i.toNat room.current_player)).2) := by
        rw [← hfst]
      exact ⟨c, room,
        { room with
          game_state := List.replicate 9 emptyCell
          current_player := sX }, hr, rfl, rfl,
        by rw [game_move_decisive ws hc hr hi hlo hhi hp hcell hwin]⟩
    | none =>
      have hwin := check_win_fst_none hfst
      exact ⟨c, room,
        { room with
          game_state := room.game_state.set i.toNat room.current_player
          current_player := if room.current_player = sX then sO else sX }, hr, rfl, rfl,
        by rw [game_move_ongoing ws hc hr hi hlo hhi hp hcell hwin]⟩
  · left
    rw [game_move_rejected R ws data hacc]

theorem unregister_registry_cases (R : Registry) (ws : Conn) :
    (unregister R ws).1 = R ∨
    (∃ c r, get_room_by_websocket R ws = some (c, r) ∧
      (unregister R ws).1 = delRoom R c) ∨
    (∃ c r room1, get_room_by_websocket R ws = some (c, r) ∧
      (room1 = { r with player_x := none } ∨ room1 = { r with player_o := none }) ∧
      ¬ (room1.player_x = none ∧ room1.player_o = none) ∧
      (unregister R ws).1 = setRoom R c room1) := by
  unfold unregister
  cases hget : get_room_by_websocket R ws with
  | none => left; rfl
  | some p =>
    obtain ⟨c, r⟩ := p
    dsimp only
    by_cases hpx : r.player_x = some ws
    · rw [if_pos hpx, if_pos rfl]
      split_ifs with hboth
      · right; left; exact ⟨c, r, rfl, rfl⟩
      · right; right; exact ⟨c, r, _, rfl, Or.inl rfl, hboth, rfl⟩
    · rw [if_neg hpx, if_neg (by decide : ¬ sO = sX)]
      split_ifs with hboth
      · right; left; exact ⟨c, r, rfl, rfl⟩
      · right; right; exact ⟨c, r, _, rfl, Or.inr rfl, hboth, rfl⟩

/-! ### Invariant preservation across server steps -/

theorem keys_setRoom (R : Registry) (c : String) (r : Room) :
    (setRoom R c r).map Prod.fst = R.map Prod.fst := by
  induction R with
  | nil => rfl
  | cons p R ih =>
    rw [setRoom_cons, List.map_cons, List.map_cons, ih]
    by_cases hc : p.1 = c
    · rw [if_pos hc]
      simp [hc]
    · rw [if_neg hc]

theorem mem_delRoom {p : String × Room} {R : Registry} {c : String}
    (h : p ∈ delRoom R c) : p ∈ R ∧ p.1 ≠ c := by
  unfold delRoom at h
  have := List.mem_filter.1 h
  simpa using this

theorem step_rel_keys {R R2 : Registry} (hnd : keys_nodup R)
    (hs : step_rel R R2) : keys_nodup R2 := by
  unfold keys_nodup at hnd ⊢
  rcases hs with ⟨ws, code, hfresh, he⟩ | ⟨ws, data, he⟩ | ⟨ws, data, he⟩ | ⟨ws, he⟩
  · subst he
    unfold handle_create_room
    dsimp only
    rw [List.map_append]
    rw [List.nodup_append]
    refine ⟨hnd, by simp, ?_⟩
    intro a ha hb
    simp only [List.map_cons, List.map_nil, List.mem_cons, List.not_mem_nil,
      or_false] at hb
    subst hb
    rw [lookupRoom_eq_none_iff] at hfresh
    rcases List.mem_map.1 ha with ⟨q, hq, hqe⟩
    exact hfresh q hq hqe
  · subst he
    rcases join_registry_cases R ws data with he2 | ⟨c, room, _, _, _, he2⟩ <;>
      rw [he2]
    · exact hnd
    · rw [keys_setRoom]; exact hnd
  · subst he
    rcases game_move_registry_cases R ws data with he2 | ⟨c, room, room2, _, _, _, he2⟩ <;>
      rw [he2]
    · exact hnd
    · rw [keys_setRoom]; exact hnd
  · subst he
    rcases unregister_registry_cases R ws with he2 | ⟨c, r, _, he2⟩ |
        ⟨c, r, room1, _, _, _, he2⟩ <;> rw [he2]
    · exact hnd
    · exact List.Nodup.sublist (List.Sublist.map _ (List.filter_sublist R)) hnd
    · rw [keys_setRoom]; exact hnd

theorem lookup_unique {R : Registry} {c : String} {r0 r : Room}
    (hnd : keys_nodup R) (hmem : (c, r0) ∈ R) (hl : lookupRoom R c = some r) :
    r0 = r := by
  induction R with
  | nil => simp at hmem
  | cons p R ih =>
    unfold keys_nodup at hnd
    rw [List.map_cons, List.nodup_cons] at hnd
    rw [lookupRoom_cons] at hl
    rcases List.mem_cons.1 hmem with he | he
    · rw [← he] at hl
      rw [if_pos rfl] at hl
      exact Option.some.inj hl
    · by_cases hc : p.1 = c
      · exfalso
        apply hnd.1
        rw [hc]
        exact List.mem_map.2 ⟨(c, r0), he, rfl⟩
      · rw [if_neg hc] at hl
        exact ih hnd.2 he hl

theorem step_rel_no_dead {R R2 : Registry} (hd : no_dead R)
    (hs : step_rel R R2) : no_dead R2 := by
  unfold no_dead at hd ⊢
  rcases hs with ⟨ws, code, hfresh, he⟩ | ⟨ws, data, he⟩ | ⟨ws, data, he⟩ | ⟨ws, he⟩
  · subst he
    unfold handle_create_room
    dsimp only
    intro p hp
    rcases List.mem_append.1 hp with hp | hp
    · exact hd p hp
    · simp only [List.mem_cons, List.not_mem_nil, or_false] at hp
      subst hp
      left; rfl
  · subst he
    rcases join_registry_cases R ws data with he2 | ⟨c, room, _, _, _, he2⟩ <;>
      rw [he2]
    · exact hd
    · intro p hp
      rcases mem_setRoom hp with he3 | ⟨hp2, _⟩
      · subst he3; right; rfl
      · exact hd p hp2
  · subst he
    rcases game_move_registry_cases R ws data with he2 |
        ⟨c, room, room2, hlr, hpx, hpo, he2⟩ <;> rw [he2]
    · exact hd
    · intro p hp
      rcases mem_setRoom hp with he3 | ⟨hp2, _⟩
      · subst he3
        dsimp only
        rw [hpx, hpo]
        exact hd (c, room) (lookupRoom_mem hlr)
      · exact hd p hp2
  · subst he
    rcases unregister_registry_cases R ws with he2 | ⟨c, r, _, he2⟩ |
        ⟨c, r, room1, _, _, hboth, he2⟩ <;> rw [he2]
    · exact hd
    · intro p hp
      exact hd p (mem_delRoom hp).1
    · intro p hp
      rcases mem_setRoom hp with he3 | ⟨hp2, _⟩
      · subst he3
        dsimp only
        cases hx : room1.player_x with
        | some w => left; rfl
        | none =>
          cases ho : room1.player_o with
          | some w => right; rfl
          | none => exact absurd ⟨hx, ho⟩ hboth
      · exact hd p hp2

theorem join_room_full {R : Registry} {ws : Conn} {data : PyDict} {c : String}
    {room : Room}
    (hc : dictGet data kCode = PyVal.vStr c) (hcne : c ≠ emptyCell)
    (hlr : lookupRoom R c = some room) (hfull : room.player_o.isSome = true) :
    handle_join_room R ws data = (R, [(ws, tError, MsgData.errorMsg mRoomFull)]) := by
  unfold handle_join_room
  rw [hc]
  dsimp only
  rw [if_neg hcne, hlr]
  dsimp only
  rw [if_pos hfull]

theorem step_half {c : String} {R R2 : Registry} (hnd : keys_nodup R)
    (hh : half_session c R) (hs : step_rel R R2) :
    lookupRoom R2 c = none ∨ half_session c R2 := by
  obtain ⟨r, hr, hx, ho⟩ := hh
  rcases hs with ⟨ws, code, hfresh, he⟩ | ⟨ws, data, he⟩ | ⟨ws, data, he⟩ | ⟨ws, he⟩
  · subst he
    right
    unfold handle_create_room
    dsimp only
    exact ⟨r, lookupRoom_append_some hr, hx, ho⟩
  · subst he
    rcases join_registry_cases R ws data with he2 | ⟨c2, room, hcv, hlr, hpo, he2⟩ <;>
      rw [he2]
    · right; exact ⟨r, hr, hx, ho⟩
    · by_cases hcc : c2 = c
      · subst hcc
        rw [hr] at hlr
        injection hlr with he3
        rw [← he3] at hpo
        rw [hpo] at ho
        simp at ho
      · right
        exact ⟨r, by rw [lookupRoom_setRoom_ne _ (fun he3 => hcc he3.symm)]; exact hr,
          hx, ho⟩
  · subst he
    rcases game_move_registry_cases R ws data with he2 |
        ⟨c2, room, room2, hlr, hpx, hpo, he2⟩ <;> rw [he2]
    · right; exact ⟨r, hr, hx, ho⟩
    · by_cases hcc : c2 = c
      · subst hcc
        rw [hr] at hlr
        injection hlr with he3
        right
        refine ⟨room2, lookupRoom_setRoom_self _ (lookupRoom_mem hr), ?_, ?_⟩
        · rw [hpx, ← he3]; exact hx
        · rw [hpo, ← he3]; exact ho
      · right
        exact ⟨r, by rw [lookupRoom_setRoom_ne _ (fun he3 => hcc he3.symm)]; exact hr,
          hx, ho⟩
  · subst he
    rcases unregister_registry_cases R ws with he2 | ⟨c0, r0, hget, he2⟩ |
        ⟨c0, r0, room1, hget, hr1, hboth, he2⟩ <;> rw [he2]
    · right; exact ⟨r, hr, hx, ho⟩
    · by_cases hcc : c0 = c
      · subst hcc
        left
        exact lookupRoom_delRoom_self R c0
      · right
        refine ⟨r, ?_, hx, ho⟩
        rw [lookupRoom_delRoom_ne (show c ≠ c0 from fun he3 => hcc he3.symm)]
        exact hr
    · by_cases hcc : c0 = c
      · subst hcc
        have hr0 : r0 = r := lookup_unique hnd (get_room_mem hget) hr
        subst hr0
        rcases hr1 with he3 | he3
        · right
          refine ⟨room1, lookupRoom_setRoom_self _ (get_room_mem hget), ?_, ?_⟩
          · rw [he3]
          · rw [he3]; exact ho
        · exfalso
          apply hboth
          rw [he3]
          exact ⟨hx, rfl⟩
      · right
        exact ⟨r, by rw [lookupRoom_setRoom_ne _ (fun he3 => hcc he3.symm)]; exact hr,
          hx, ho⟩

theorem steps_alive_half {c : String} {R R2 : Registry}
    (hs : steps_alive c R R2) (hnd : keys_nodup R) (hh : half_session c R) :
    half_session c R2 ∧ keys_nodup R2 := by
  induction hs with
  | refl => exact ⟨hh, hnd⟩
  | tail hsteps hstep halive ih =>
    obtain ⟨hh2, hnd2⟩ := ih
    refine ⟨?_, step_rel_keys hnd2 hstep⟩
    rcases step_half hnd2 hh2 hstep with hnone | hhalf
    · rw [hnone] at halive
      simp at halive
    · exact hhalf

/-- C6: in a session with both slots occupied, `unregister` for one occupant
leaves the session registered with the vacated slot cleared and the other
slot still occupied, and sends the remaining occupant
`opponent_disconnected` carrying the vacated symbol; a subsequent
`unregister` by the remaining occupant deletes the session from the registry
outright; and every server step preserves the invariant that no registered
session has both slots unoccupied. -/
theorem claim_C6 {R : Registry} {ws w1 w2 : Conn} {c : String} {r : Room}
    (hfind : get_room_by_websocket R ws = some (c, r))
    (hx : r.player_x = some w1) (ho : r.player_o = some w2) :
    (ws = w1 →
      unregister R ws = (setRoom R c { r with player_x := none },
        [(w2, tOppDisc, MsgData.discData sX)]) ∧
      lookupRoom (setRoom R c { r with player_x := none }) c =
        some { r with player_x := none }) ∧
    (ws = w2 → w1 ≠ w2 →
      unregister R ws = (setRoom R c { r with player_o := none },
        [(w1, tOppDisc, MsgData.discData sO)]) ∧
      lookupRoom (setRoom R c { r with player_o := none }) c =
        some { r with player_o := none }) ∧
    (ws = w1 →
      (∀ p ∈ R, p.1 ≠ c → ¬ (p.2.player_x = some w2 ∨ p.2.player_o = some w2)) →
      unregister (setRoom R c { r with player_x := none }) w2 =
        (delRoom (setRoom R c { r with player_x := none }) c, []) ∧
      lookupRoom (delRoom (setRoom R c { r with player_x := none }) c) c = none ∧
      ∀ p ∈ delRoom (setRoom R c { r with player_x := none }) c, p.1 ≠ c) ∧
    (∀ R1 R2, no_dead R1 → step_rel R1 R2 → no_dead R2) := by
  refine ⟨?_, ?_, ?_, fun R1 R2 => step_rel_no_dead⟩
  · intro hws
    subst hws
    refine ⟨unregister_x_leaves hfind hx ho, ?_⟩
    exact lookupRoom_setRoom_self _ (get_room_mem hfind)
  · intro hws hne
    subst hws
    have hxne : r.player_x ≠ some ws := by
      rw [hx]
      exact fun he => hne (Option.some.inj he)
    refine ⟨unregister_o_leaves hfind hxne hx ho, ?_⟩
    exact lookupRoom_setRoom_self _ (get_room_mem hfind)
  · intro hws honly
    subst hws
    have hget2 : get_room_by_websocket (setRoom R c { r with player_x := none }) w2 =
        some (c, { r with player_x := none }) := by
      apply get_room_setRoom (Or.inr (by dsimp only; exact ho))
      · exact ⟨r, get_room_mem hfind⟩
      · exact honly
    refine ⟨unregister_last hget2 rfl (by dsimp only; exact ho), ?_, ?_⟩
    · exact lookupRoom_delRoom_self _ _
    · intro p hp
      exact (mem_delRoom hp).2

/-- C6 witness: in room 123456 occupied by connections 1 (X) and 2 (O),
connection 1 leaving keeps the room with only slot O occupied and notifies 2
that X vacated; connection 2 then leaving deletes the room. -/
theorem claim_C6_witness :
    unregister RW 1 = (setRoom RW c123 { roomW with player_x := none },
      [(2, tOppDisc, MsgData.discData sX)]) ∧
    unregister (setRoom RW c123 { roomW with player_x := none }) 2 =
      (delRoom (setRoom RW c123 { roomW with player_x := none }) c123, []) := by
  have h := @claim_C6 RW 1 1 2 c123 roomW (by decide) (by decide) (by decide)
  exact ⟨(h.1 rfl).1, (h.2.2.1 rfl (by decide)).1⟩

/-- C10: once a session's X slot is vacated while its O slot stays occupied,
then along any chain of server steps during which the session stays
registered its X slot remains unoccupied — `handle_create_room` only ever
adds a fresh code and `handle_join_room` only ever fills slot O — so the
session never again has two occupants, and every join attempt on its code is
rejected with the room-full error and no state change. -/
theorem claim_C10 {R R2 : Registry} {c : String} {r : Room} {w : Conn}
    (hnd : keys_nodup R) (halive : steps_alive c R R2)
    (hr : lookupRoom R c = some r) (hx : r.player_x = none)
    (ho : r.player_o = some w) (hcne : c ≠ emptyCell) :
    (∃ r2, lookupRoom R2 c = some r2 ∧ r2.player_x = none ∧
      r2.player_o.isSome = true) ∧
    (∀ ws data, dictGet data kCode = PyVal.vStr c →
      handle_join_room R2 ws data =
        (R2, [(ws, tError, MsgData.errorMsg mRoomFull)])) := by
  have hh : half_session c R := ⟨r, hr, hx, by rw [ho]; rfl⟩
  obtain ⟨⟨r2, hl2, hx2, ho2⟩, hnd2⟩ := steps_alive_half halive hnd hh
  refine ⟨⟨r2, hl2, hx2, ho2⟩, ?_⟩
  intro ws data hc
  exact join_room_full hc hcne hl2 ho2

/-- C10 witness: the registry holding only room 123456 with slot X vacated
and slot O held by connection 2 keeps that shape along the empty step chain,
and a join attempt on 123456 is refused as full with no state change. -/
theorem claim_C10_witness :
    (∃ r2, lookupRoom RHalfO c123 = some r2 ∧ r2.player_x = none ∧
      r2.player_o.isSome = true) ∧
    (∀ ws data, dictGet data kCode = PyVal.vStr c123 →
      handle_join_room RHalfO ws data =
        (RHalfO, [(ws, tError, MsgData.errorMsg mRoomFull)])) :=
  @claim_C10 RHalfO RHalfO c123 roomHalfO 2 (by unfold keys_nodup; decide)
    (steps_alive.refl RHalfO) (by decide) (by decide) (by decide) (by decide)
